import Mathlib

/-
Verification of the sampling-loop state machine, episode segmentation and
metrics-aggregation logic of a multi-agent environment runner
(rllib/env/multi_agent_env_runner.py).

The runner drives a deterministic multi-agent environment, records
trajectories into episode records, cuts in-flight episodes at call
boundaries, and aggregates metrics across episode chunks.  External
collaborators (environment, decision module, the two connector pipelines)
are consumed through deterministic functional interfaces, as the source
consumes them through abstract call interfaces.

The episode record type itself (class MultiAgentEpisode) lives in a
different file of the repository; its operations used here
(add_env_reset, add_env_step, cut, finalize, len, get_return,
get_duration_s) are modelled from the spec, see the doc comments below.
-/

set_option maxHeartbeats 1000000

namespace MAER

/-- Per-agent dictionaries (keyed by agent id / module id / episode id) are
modelled as association lists in insertion order, mirroring Python dicts. -/
abbrev AA (α : Type) : Type := List (Nat × α)

/-- Update the value under key k with f when present (keeping insertion
order, as Python dict item assignment does), otherwise append (k, mk). -/
def AAupd {α : Type} (l : AA α) (k : Nat) (f : α → α) (mk : α) : AA α :=
  if (l.lookup k).isSome then
    l.map (fun p => if p.1 = k then (p.1, f p.2) else p)
  else l ++ [(k, mk)]

/-- Delete a key, as Python del d[k]. -/
def AAerase {α : Type} (l : AA α) (k : Nat) : AA α :=
  l.filter (fun p => p.1 != k)

/-- Modelled from the spec: one per-agent sub-record of an episode record
("for each agent id, an ordered sequence of (observation, action, reward,
...) tuples plus a stable mapping to the learnable module responsible for
that agent").  The terminated/truncated flags and extra outputs of a tuple
are not consumed by any verified property and are omitted. -/
structure SAEp where
  agent_id : Nat
  module_id : Nat
  steps : List (Nat × Option Nat × Int)
deriving Repr, DecidableEq

/-- Length of a per-agent sub-record (len(sa_eps) in the source). -/
def SAEp.len (sa : SAEp) : Nat := sa.steps.length

/-- Return (sum of rewards) of a per-agent sub-record. -/
def SAEp.ret (sa : SAEp) : Int := (sa.steps.map (fun t => t.2.2)).sum

/-- One recorded environment step: the per-agent observations, actions and
rewards of the transition, in the order they were recorded. -/
structure StepRec where
  obs : AA Nat
  acts : AA Nat
  rews : AA Int
deriving Repr, DecidableEq

/-- Modelled from the spec: the Episode Record (class MultiAgentEpisode,
not part of the verified file).  Holds one trajectory chunk: identity
stable across chunk boundaries, per-agent sub-records, the recorded steps
of this chunk, the cumulative environment-step counter (env_t_started at
chunk start, env_t = env_t_started + number of recorded steps), the done
flag, a wall-clock duration accumulator, and the read-only lookback
context copied by cut.  terminalPasses counts env-to-module connector
passes performed over the record while it is done (the extra terminal
pass); finalized records that finalize has been called. -/
structure MAEpisode where
  id_ : Nat
  env_t_started : Nat
  steps : List StepRec
  agents : AA SAEp
  currentObs : AA Nat
  is_done : Bool
  duration : Nat
  terminalPasses : Nat
  finalized : Bool
  lookback : List StepRec
deriving Repr, DecidableEq

/-- Cumulative environment-step counter of the episode. -/
def MAEpisode.env_t (e : MAEpisode) : Nat := e.env_t_started + e.steps.length

/-- Number of steps recorded in this chunk (len(eps) in the source). -/
def MAEpisode.len (e : MAEpisode) : Nat := e.steps.length

/-- Episode return: sum of the per-agent sub-record returns. -/
def MAEpisode.get_return (e : MAEpisode) : Int := (e.agents.map (fun p => p.2.ret)).sum

/-- Wall-clock duration of the chunk. -/
def MAEpisode.get_duration_s (e : MAEpisode) : Nat := e.duration

/-- A freshly created, empty episode record (MultiAgentEpisode()). -/
def newEpisode (id : Nat) : MAEpisode :=
  ⟨id, 0, [], [], [], false, 0, 0, false, []⟩

/-- The tuple appended to an agent sub-record for one env step. -/
def stepEntry (acts : AA Nat) (rews : AA Int) (aid o : Nat) : Nat × Option Nat × Int :=
  (o, acts.lookup aid, (rews.lookup aid).getD 0)

/-- Modelled from the spec: add_env_reset seeds the record with the
initial per-agent observations; agents present get a (still empty)
sub-record with their module mapping. -/
def MAEpisode.add_env_reset (e : MAEpisode) (mapfn : Nat → Nat) (obs : AA Nat) : MAEpisode :=
  { e with currentObs := obs,
           agents := obs.foldl (fun ags p => AAupd ags p.1 id ⟨p.1, mapfn p.1, []⟩) e.agents }

/-- Modelled from the spec: add_env_step appends one step; agents with an
observation in this transition get a sub-record entry, the global step
counter increments exactly once, the done flag is taken from the
global done signal of the environment, the duration accumulator grows by the
wall-clock time of the step. -/
def MAEpisode.add_env_step (e : MAEpisode) (mapfn : Nat → Nat) (obs : AA Nat) (acts : AA Nat)
    (rews : AA Int) (allDone : Bool) (dur : Nat) : MAEpisode :=
  { e with steps := e.steps ++ [⟨obs, acts, rews⟩],
           agents := obs.foldl (fun ags p =>
               AAupd ags p.1
                 (fun sa => { sa with steps := sa.steps ++ [stepEntry acts rews p.1 p.2] })
                 ⟨p.1, mapfn p.1, [stepEntry acts rews p.1 p.2]⟩) e.agents,
           currentObs := obs,
           is_done := allDone,
           duration := e.duration + dur }

/-- Modelled from the spec: cut returns the continuation record sharing
the episode id, pre-populated with the last h recorded steps as read-only
lookback context, carrying no recorded data of its own; the cumulative
step counter continues (env_t_started of the continuation equals env_t of
the parent). -/
def MAEpisode.cut (e : MAEpisode) (h : Nat) : MAEpisode :=
  { id_ := e.id_, env_t_started := e.env_t, steps := [], agents := [],
    currentObs := e.currentObs, is_done := e.is_done, duration := 0,
    terminalPasses := 0, finalized := false,
    lookback := (e.lookback ++ e.steps).drop ((e.lookback ++ e.steps).length - h) }

/-- Modelled from the spec: finalize converts the record to its immutable
return form, dropping per-agent sub-records with zero steps when asked. -/
def MAEpisode.finalize (e : MAEpisode) (dropZero : Bool) : MAEpisode :=
  { e with finalized := true,
           agents := if dropZero then e.agents.filter (fun p => !p.2.steps.isEmpty) else e.agents }

/-- Result of one environment step: successor environment state, next
per-agent observations, per-agent rewards, the global done signal
(terminateds/truncateds reduced to the __all__ flag), and the wall-clock
time the step took. -/
structure EnvStepOut where
  nextState : Nat
  obs : AA Nat
  rewards : AA Int
  allDone : Bool
  dur : Nat

/-- The environment collaborator: a deterministic state machine with
reset() returning fixed initial observations and step() a function of the
internal state and the submitted actions. -/
structure Env where
  resetState : Nat
  resetObs : AA Nat
  stepf : Nat → AA Nat → EnvStepOut

/-- Fixed configuration of the runner: the settings read from the
AlgorithmConfig plus the deterministic interfaces of the external
collaborators (environment, decision module forwards, the two connector
pipelines, the action-space sampler used for random actions).
has_module is false in the legitimate no-RLModule state reached when the
module cannot be built for pure random-action sampling. -/
structure Config where
  policy_mapping_fn : Nat → Nat
  episode_lookback_horizon : Nat
  rollout_fragment_length : Nat
  batch_mode_truncate_episodes : Bool
  explore : Bool
  env : Env
  has_module : Bool
  env_to_module : AA Nat → Nat
  forward_exploration : Nat → Nat → Nat → Nat
  forward_inference : Nat → Nat → Nat
  module_to_env : Nat → AA Nat
  action_space_sample : Nat → AA Nat

/-- Mutable state of the runner instance: environment state, the RNG
stream position of the action-space sampler, the needs-initial-reset
flag, the in-flight episode, the cached env-to-module look-ahead, the
Done-Episode Queue (_done_episodes_for_metrics), the Ongoing-Episode
Registry (_ongoing_episodes_for_metrics), the weight version counter and
decision-module weights, the lifetime and per-call env-step counters, a
fresh-id source for new episode records, and the two connector pipeline
states. -/
structure Runner where
  env_state : Nat
  rng : Nat
  needs_initial_reset : Bool
  episode : MAEpisode
  cached_to_module : Option Nat
  done_eps : List MAEpisode
  ongoing : AA (List MAEpisode)
  weights_seq_no : Nat
  module_weights : Nat
  env_steps_lifetime : Nat
  env_steps_current : Nat
  next_id : Nat
  env_to_module_state : Nat
  module_to_env_state : Nat
deriving Repr, DecidableEq

/-- The env-to-module connector call over one episode.  Its computed
inputs are a pure function of the current observations of the episode; when
invoked on a done episode it is the extra terminal pass, counted on the
record. -/
def envToModulePass (ep : MAEpisode) : MAEpisode :=
  if ep.is_done then { ep with terminalPasses := ep.terminalPasses + 1 } else ep

/-- Action computation of one loop iteration (lines 238-294 of the
source): in random mode a fresh draw from the action space filtered to
the agents allowed to act; otherwise the cached env-to-module look-ahead
(or a fresh connector pass) feeds the module forward (exploration or
inference) and the module-to-env connector.  Returns the actions, the new
RNG position and the new cached look-ahead (consumed by the non-random
branch). -/
def actionsCore (cfg : Config) (explore random : Bool) (curObs : AA Nat) (cached : Option Nat)
    (rng weights tcount : Nat) : AA Nat × Nat × Option Nat :=
  if random then
    ((cfg.action_space_sample rng).filter (fun p => (curObs.lookup p.1).isSome), rng + 1, cached)
  else
    let toModule := cached.getD (cfg.env_to_module curObs)
    let out := if explore then cfg.forward_exploration weights toModule tcount
               else cfg.forward_inference weights toModule
    (cfg.module_to_env out, rng, none)

/-- One iteration of the while loop of the fixed-timestep driver (lines
237-366): compute actions, step the environment, record the transition;
when the episode is done perform the extra terminal connector pass (only
when an RLModule exists), finalize, and reset into a fresh episode.
Returns the new runner state and the finalized done episode, if any. -/
def loopStep (cfg : Config) (explore random : Bool) (s : Runner) : Runner × Option MAEpisode :=
  let ac := actionsCore cfg explore random s.episode.currentObs s.cached_to_module s.rng
    s.module_weights (s.env_steps_lifetime + s.env_steps_current)
  let out := cfg.env.stepf s.env_state ac.1
  let ep := s.episode.add_env_step cfg.policy_mapping_fn out.obs ac.1 out.rewards out.allDone out.dur
  let s1 : Runner :=
    { s with env_state := out.nextState, rng := ac.2.1, cached_to_module := ac.2.2,
             env_steps_lifetime := s.env_steps_lifetime + 1,
             env_steps_current := s.env_steps_current + 1, episode := ep }
  if ep.is_done then
    let epf := (if cfg.has_module then envToModulePass ep else ep).finalize true
    ({ s1 with episode := (newEpisode s1.next_id).add_env_reset cfg.policy_mapping_fn cfg.env.resetObs,
               env_state := cfg.env.resetState,
               next_id := s1.next_id + 1 }, some epf)
  else (s1, none)

/-- The while loop of the fixed-timestep driver, running exactly n iterations
(ts advances by num_envs = 1 per iteration); collects the finalized done
episodes in order. -/
def stepLoop (cfg : Config) (explore random : Bool) : Nat → Runner → Runner × List MAEpisode
  | 0, s => (s, [])
  | n+1, s =>
    let r := loopStep cfg explore random s
    let rest := stepLoop cfg explore random n r.1
    (rest.1, r.2.toList ++ rest.2)

/-- The reset prologue of _sample_timesteps (lines 205-232): on
force_reset or a pending needs-initial-reset, create a fresh episode,
clear the Ongoing-Episode Registry, reset the environment, drop the
cached look-ahead and seed the new episode with the reset observations. -/
def resetIfNeeded (cfg : Config) (force : Bool) (s0 : Runner) : Runner :=
  if force || s0.needs_initial_reset then
    { s0 with
      episode := (newEpisode s0.next_id).add_env_reset cfg.policy_mapping_fn cfg.env.resetObs,
      next_id := s0.next_id + 1,
      ongoing := [],
      env_state := cfg.env.resetState,
      cached_to_module := none,
      needs_initial_reset := false }
  else s0

/-- The epilogue of _sample_timesteps (lines 368-402): cache the
look-ahead connector pass for the next call (when an RLModule exists),
extend the Done-Episode Queue, cut the in-flight episode, and surface and
register the cut chunk only when the env_t of the pre-cut episode is positive. -/
def finishTimesteps (cfg : Config) (st : Runner × List MAEpisode) : List MAEpisode × Runner :=
  let s2 : Runner :=
    if cfg.has_module then
      { st.1 with cached_to_module := some (cfg.env_to_module st.1.episode.currentObs),
                  episode := envToModulePass st.1.episode }
    else st.1
  let s3 : Runner := { s2 with done_eps := s2.done_eps ++ st.2 }
  let cont := s3.episode.cut cfg.episode_lookback_horizon
  if 0 < s3.episode.env_t then
    let fin := s3.episode.finalize true
    (st.2 ++ [fin],
     { s3 with episode := cont,
               ongoing := AAupd s3.ongoing s3.episode.id_ (fun l => l ++ [fin]) [fin] })
  else
    (st.2, { s3 with episode := cont })

/-- The fixed-timestep driver _sample_timesteps (lines 181-402). -/
def sampleTimesteps (cfg : Config) (numT : Nat) (explore random force : Bool)
    (s0 : Runner) : List MAEpisode × Runner :=
  finishTimesteps cfg (stepLoop cfg explore random numT (resetIfNeeded cfg force s0))

/-- The while loop of the fixed-episode driver (lines 437-578), with explicit
fuel bounding the number of environment steps; left counts the episodes
still to be completed.  The episode under construction is a local
variable of the driver (the in-flight episode field of the runner is not
touched), and the cached look-ahead is neither consumed nor written.
Returns none when the fuel is exhausted before the target count. -/
def epLoop (cfg : Config) (explore random : Bool) :
    Nat → Nat → MAEpisode → Runner → Option (Runner × List MAEpisode)
  | _, 0, _, s => some (s, [])
  | 0, _+1, _, _ => none
  | fuel+1, left+1, ep, s =>
    let ac := actionsCore cfg explore random ep.currentObs none s.rng s.module_weights
      (s.env_steps_lifetime + s.env_steps_current)
    let out := cfg.env.stepf s.env_state ac.1
    let ep1 := ep.add_env_step cfg.policy_mapping_fn out.obs ac.1 out.rewards out.allDone out.dur
    let s1 : Runner :=
      { s with env_state := out.nextState, rng := ac.2.1,
               env_steps_lifetime := s.env_steps_lifetime + 1,
               env_steps_current := s.env_steps_current + 1 }
    if ep1.is_done then
      let epf := (if cfg.has_module then envToModulePass ep1 else ep1).finalize true
      if left = 0 then some (s1, [epf])
      else
        match epLoop cfg explore random fuel left
            ((newEpisode s1.next_id).add_env_reset cfg.policy_mapping_fn cfg.env.resetObs)
            { s1 with env_state := cfg.env.resetState, next_id := s1.next_id + 1 } with
        | none => none
        | some (sE, ds) => some (sE, epf :: ds)
    else epLoop cfg explore random fuel (left+1) ep1 s1

/-- The fixed-episode driver _sample_episodes (lines 404-582): set the
needs-initial-reset flag for the next timestep-mode call, build a fresh
local episode, force-reset the environment, run the loop, and extend the
Done-Episode Queue with the completed episodes. -/
def sampleEpisodes (cfg : Config) (fuel numE : Nat) (explore random : Bool)
    (s0 : Runner) : Option (List MAEpisode × Runner) :=
  let s : Runner := { s0 with needs_initial_reset := true }
  match epLoop cfg explore random fuel numE
      ((newEpisode s.next_id).add_env_reset cfg.policy_mapping_fn cfg.env.resetObs)
      { s with env_state := cfg.env.resetState, next_id := s.next_id + 1 } with
  | none => none
  | some (s1, ds) => some (ds, { s1 with done_eps := s1.done_eps ++ ds })

/-- The public sample entry point (lines 108-179): rejects calls giving
both num_timesteps and num_episodes before any environment interaction
(the assert on line 142 is the first statement); with neither given,
derives the timestep count from the rollout-fragment length under
truncate_episodes batching, else samples one full episode; then
dispatches to the matching driver. -/
def sample (cfg : Config) (fuel : Nat) (numT numE : Option Nat) (exploreArg : Option Bool)
    (random force : Bool) (s : Runner) : Except Unit (Option (List MAEpisode × Runner)) :=
  if numT.isSome && numE.isSome then Except.error () else
  let explore := exploreArg.getD cfg.explore
  let args : Option Nat × Option Nat :=
    if numT.isNone && numE.isNone then
      if cfg.batch_mode_truncate_episodes then (some cfg.rollout_fragment_length, none)
      else (none, some 1)
    else (numT, numE)
  match args.1 with
  | some n => Except.ok (some (sampleTimesteps cfg n explore random force s))
  | none => Except.ok (sampleEpisodes cfg fuel (args.2.getD 1) explore random s)

/-- The per-episode statistics emitted by one _log_episode_metrics call:
episode length, return and duration, and the per-agent returns,
per-module returns and per-agent step counts as total maps (Python
defaultdicts with default 0). -/
structure EpMetrics where
  length : Nat
  ret : Int
  duration : Nat
  agent_returns : Nat → Int
  module_returns : Nat → Int
  agent_steps : Nat → Nat

/-- Pointwise update of a total map, as Python dict assignment on a
defaultdict. -/
def dUpd {α : Type} (f : Nat → α) (k : Nat) (v : α) : Nat → α :=
  fun x => if x = k then v else f x

/-- Metrics computation for one entry of the Done-Episode Queue (lines
586-634): the dict comprehensions over the agent
sub-records (later entries overwriting earlier ones sharing a key), then,
when the episode id has entries in the Ongoing-Episode Registry, the
additive fold of the lengths and returns of every earlier chunk, and the
deletion of the registry entry.  Returns the emitted statistics and the
updated registry. -/
def episodeMetricsOne (reg : AA (List MAEpisode)) (eps : MAEpisode) :
    EpMetrics × AA (List MAEpisode) :=
  let aSteps0 : Nat → Nat := eps.agents.foldl (fun f p => dUpd f p.1 p.2.len) (fun _ => 0)
  let aRet0 : Nat → Int := eps.agents.foldl (fun f p => dUpd f p.2.agent_id p.2.ret) (fun _ => 0)
  let mRet0 : Nat → Int := eps.agents.foldl (fun f p => dUpd f p.2.module_id p.2.ret) (fun _ => 0)
  match reg.lookup eps.id_ with
  | some chunks =>
    let acc := chunks.foldl (fun (acc : (Nat → Nat) × (Nat → Int) × (Nat → Int)) c =>
        c.agents.foldl (fun (a2 : (Nat → Nat) × (Nat → Int) × (Nat → Int)) p =>
            (dUpd a2.1 p.2.agent_id (a2.1 p.2.agent_id + p.2.len),
             dUpd a2.2.1 p.2.agent_id (a2.2.1 p.2.agent_id + p.2.ret),
             dUpd a2.2.2 p.2.module_id (a2.2.2 p.2.module_id + p.2.ret))) acc)
      (aSteps0, aRet0, mRet0)
    (⟨eps.len + (chunks.map MAEpisode.len).sum,
      eps.get_return + (chunks.map MAEpisode.get_return).sum,
      eps.get_duration_s + (chunks.map MAEpisode.get_duration_s).sum,
      acc.2.1, acc.2.2, acc.1⟩,
     AAerase reg eps.id_)
  | none =>
    (⟨eps.len, eps.get_return, eps.get_duration_s, aRet0, mRet0, aSteps0⟩, reg)

/-- get_metrics (lines 584-648): asserts every queued episode is done,
emits one statistics record per queued episode (folding and deleting
Ongoing-Episode Registry entries as it goes), logs the per-call episode
count, clears the Done-Episode Queue and resets the per-call env-step
counter.  The failed assertion is modelled as the none result. -/
def get_metrics (s : Runner) : Option (List EpMetrics × Nat × Runner) :=
  if s.done_eps.all (fun e => e.is_done) then
    let r := s.done_eps.foldl
      (fun (acc : List EpMetrics × AA (List MAEpisode)) e =>
        let m := episodeMetricsOne acc.2 e
        (acc.1 ++ [m.1], m.2)) ([], s.ongoing)
    some (r.1, s.done_eps.length,
          { s with done_eps := [], ongoing := r.2, env_steps_current := 0 })
  else none

/-- An incoming state dict for set_state: each component optional, as the
presence of the corresponding key in the Python dict. -/
structure StateIn where
  env_to_module_connector : Option Nat
  module_to_env_connector : Option Nat
  rl_module : Option Nat
  weights_seq_no : Option Nat
  env_steps_lifetime : Option Nat

/-- set_state (lines 680-710): always applies connector states when
present; applies decision-module weights only when the incoming version
tag (missing treated as 0) is 0 or strictly greater than the local
counter; overwrites the local counter with any nonzero incoming tag; and
sets the lifetime env-step counter when supplied. -/
def set_state (st : StateIn) (s : Runner) : Runner :=
  let s := match st.env_to_module_connector with
    | some v => { s with env_to_module_state := v }
    | none => s
  let s := match st.module_to_env_connector with
    | some v => { s with module_to_env_state := v }
    | none => s
  let s := match st.rl_module with
    | some w =>
      let seq := st.weights_seq_no.getD 0
      let s := if seq = 0 ∨ s.weights_seq_no < seq then { s with module_weights := w } else s
      if 0 < seq then { s with weights_seq_no := seq } else s
    | none => s
  match st.env_steps_lifetime with
  | some v => { s with env_steps_lifetime := v }
  | none => s

/-- The combined recorded content of a list of returned episode chunks:
the concatenation, in order, of their recorded steps (each step holding
the per-agent observations, actions and rewards of one transition). -/
def flatSteps (l : List MAEpisode) : List StepRec :=
  (l.map MAEpisode.steps).flatten

/- Basic facts about the episode-record operations. -/

@[simp] theorem add_env_step_steps (e : MAEpisode) (f : Nat → Nat) (o : AA Nat) (a : AA Nat)
    (rw : AA Int) (d : Bool) (du : Nat) :
    (e.add_env_step f o a rw d du).steps = e.steps ++ [⟨o, a, rw⟩] := rfl

@[simp] theorem add_env_step_currentObs (e : MAEpisode) (f : Nat → Nat) (o : AA Nat) (a : AA Nat)
    (rw : AA Int) (d : Bool) (du : Nat) :
    (e.add_env_step f o a rw d du).currentObs = o := rfl

@[simp] theorem add_env_step_is_done (e : MAEpisode) (f : Nat → Nat) (o : AA Nat) (a : AA Nat)
    (rw : AA Int) (d : Bool) (du : Nat) :
    (e.add_env_step f o a rw d du).is_done = d := rfl

@[simp] theorem add_env_step_terminalPasses (e : MAEpisode) (f : Nat → Nat) (o : AA Nat)
    (a : AA Nat) (rw : AA Int) (d : Bool) (du : Nat) :
    (e.add_env_step f o a rw d du).terminalPasses = e.terminalPasses := rfl

@[simp] theorem add_env_step_id (e : MAEpisode) (f : Nat → Nat) (o : AA Nat) (a : AA Nat)
    (rw : AA Int) (d : Bool) (du : Nat) :
    (e.add_env_step f o a rw d du).id_ = e.id_ := rfl

@[simp] theorem add_env_step_env_t_started (e : MAEpisode) (f : Nat → Nat) (o : AA Nat)
    (a : AA Nat) (rw : AA Int) (d : Bool) (du : Nat) :
    (e.add_env_step f o a rw d du).env_t_started = e.env_t_started := rfl

@[simp] theorem add_env_reset_currentObs (e : MAEpisode) (f : Nat → Nat) (o : AA Nat) :
    (e.add_env_reset f o).currentObs = o := rfl

@[simp] theorem add_env_reset_is_done (e : MAEpisode) (f : Nat → Nat) (o : AA Nat) :
    (e.add_env_reset f o).is_done = e.is_done := rfl

@[simp] theorem add_env_reset_steps (e : MAEpisode) (f : Nat → Nat) (o : AA Nat) :
    (e.add_env_reset f o).steps = e.steps := rfl

@[simp] theorem add_env_reset_terminalPasses (e : MAEpisode) (f : Nat → Nat) (o : AA Nat) :
    (e.add_env_reset f o).terminalPasses = e.terminalPasses := rfl

@[simp] theorem add_env_reset_id (e : MAEpisode) (f : Nat → Nat) (o : AA Nat) :
    (e.add_env_reset f o).id_ = e.id_ := rfl

@[simp] theorem envToModulePass_steps (e : MAEpisode) : (envToModulePass e).steps = e.steps := by
  unfold envToModulePass; split <;> rfl

@[simp] theorem envToModulePass_currentObs (e : MAEpisode) :
    (envToModulePass e).currentObs = e.currentObs := by
  unfold envToModulePass; split <;> rfl

@[simp] theorem envToModulePass_is_done (e : MAEpisode) :
    (envToModulePass e).is_done = e.is_done := by
  unfold envToModulePass; split <;> rfl

@[simp] theorem envToModulePass_id (e : MAEpisode) : (envToModulePass e).id_ = e.id_ := by
  unfold envToModulePass; split <;> rfl

@[simp] theorem envToModulePass_env_t_started (e : MAEpisode) :
    (envToModulePass e).env_t_started = e.env_t_started := by
  unfold envToModulePass; split <;> rfl

@[simp] theorem finalize_steps (e : MAEpisode) (b : Bool) : (e.finalize b).steps = e.steps := rfl

@[simp] theorem finalize_is_done (e : MAEpisode) (b : Bool) : (e.finalize b).is_done = e.is_done := rfl

@[simp] theorem finalize_id (e : MAEpisode) (b : Bool) : (e.finalize b).id_ = e.id_ := rfl

@[simp] theorem finalize_terminalPasses (e : MAEpisode) (b : Bool) :
    (e.finalize b).terminalPasses = e.terminalPasses := rfl

@[simp] theorem finalize_finalized (e : MAEpisode) (b : Bool) : (e.finalize b).finalized = true := rfl

@[simp] theorem finalize_env_t_started (e : MAEpisode) (b : Bool) :
    (e.finalize b).env_t_started = e.env_t_started := rfl

@[simp] theorem cut_steps (e : MAEpisode) (h : Nat) : (e.cut h).steps = [] := rfl

@[simp] theorem cut_currentObs (e : MAEpisode) (h : Nat) : (e.cut h).currentObs = e.currentObs := rfl

@[simp] theorem cut_is_done (e : MAEpisode) (h : Nat) : (e.cut h).is_done = e.is_done := rfl

@[simp] theorem cut_id (e : MAEpisode) (h : Nat) : (e.cut h).id_ = e.id_ := rfl

@[simp] theorem cut_terminalPasses (e : MAEpisode) (h : Nat) : (e.cut h).terminalPasses = 0 := rfl

@[simp] theorem cut_env_t_started (e : MAEpisode) (h : Nat) : (e.cut h).env_t_started = e.env_t := rfl

@[simp] theorem newEpisode_is_done (i : Nat) : (newEpisode i).is_done = false := rfl

@[simp] theorem newEpisode_terminalPasses (i : Nat) : (newEpisode i).terminalPasses = 0 := rfl

@[simp] theorem newEpisode_id (i : Nat) : (newEpisode i).id_ = i := rfl

@[simp] theorem newEpisode_steps (i : Nat) : (newEpisode i).steps = [] := rfl

@[simp] theorem env_t_add_env_step (e : MAEpisode) (f : Nat → Nat) (o : AA Nat) (a : AA Nat)
    (rw : AA Int) (d : Bool) (du : Nat) :
    (e.add_env_step f o a rw d du).env_t = e.env_t + 1 := by
  simp [MAEpisode.env_t, Nat.add_assoc]

@[simp] theorem env_t_envToModulePass (e : MAEpisode) : (envToModulePass e).env_t = e.env_t := by
  unfold MAEpisode.env_t envToModulePass; split <;> rfl

@[simp] theorem env_t_finalize (e : MAEpisode) (b : Bool) : (e.finalize b).env_t = e.env_t := rfl

@[simp] theorem flatSteps_nil : flatSteps [] = [] := rfl

@[simp] theorem flatSteps_cons (e : MAEpisode) (l : List MAEpisode) :
    flatSteps (e :: l) = e.steps ++ flatSteps l := by
  simp [flatSteps]

theorem flatSteps_append (l1 l2 : List MAEpisode) :
    flatSteps (l1 ++ l2) = flatSteps l1 ++ flatSteps l2 := by
  simp [flatSteps]

/- Fields of the runner that the fixed-timestep loop never writes. -/

theorem loopStep_fixed (cfg : Config) (e r : Bool) (s : Runner) :
    (loopStep cfg e r s).1.needs_initial_reset = s.needs_initial_reset ∧
    (loopStep cfg e r s).1.done_eps = s.done_eps ∧
    (loopStep cfg e r s).1.ongoing = s.ongoing ∧
    (loopStep cfg e r s).1.weights_seq_no = s.weights_seq_no ∧
    (loopStep cfg e r s).1.module_weights = s.module_weights := by
  unfold loopStep; dsimp only; split <;> simp

theorem stepLoop_fixed (cfg : Config) (e r : Bool) (k : Nat) : ∀ s : Runner,
    (stepLoop cfg e r k s).1.needs_initial_reset = s.needs_initial_reset ∧
    (stepLoop cfg e r k s).1.done_eps = s.done_eps ∧
    (stepLoop cfg e r k s).1.ongoing = s.ongoing ∧
    (stepLoop cfg e r k s).1.weights_seq_no = s.weights_seq_no ∧
    (stepLoop cfg e r k s).1.module_weights = s.module_weights := by
  induction k with
  | zero => intro s; simp [stepLoop]
  | succ n ih =>
    intro s
    have h1 := loopStep_fixed cfg e r s
    have h2 := ih (loopStep cfg e r s).1
    simp only [stepLoop]
    exact ⟨h2.1.trans h1.1, h2.2.1.trans h1.2.1, h2.2.2.1.trans h1.2.2.1,
           h2.2.2.2.1.trans h1.2.2.2.1, h2.2.2.2.2.trans h1.2.2.2.2⟩

/- Splitting the fixed-timestep loop at an iteration boundary. -/

theorem stepLoop_add (cfg : Config) (e r : Bool) (n m : Nat) : ∀ s : Runner,
    stepLoop cfg e r (n + m) s =
      ((stepLoop cfg e r m (stepLoop cfg e r n s).1).1,
       (stepLoop cfg e r n s).2 ++ (stepLoop cfg e r m (stepLoop cfg e r n s).1).2) := by
  induction n with
  | zero => intro s; simp [stepLoop]
  | succ n ih =>
    intro s
    have hn : n + 1 + m = (n + m) + 1 := by omega
    rw [hn]
    simp only [stepLoop]
    rw [ih (loopStep cfg e r s).1]
    simp [List.append_assoc]

/-- Simulation relation between a runner mid-way through one long
timestep-mode call (t) and a runner at the same point of the environment
trajectory whose in-flight episode was cut at a call boundary (s): both
agree on everything the loop reads, and the in-flight episode of the long run
carries exactly the extra prefix c of recorded steps that the chunked run
already returned. -/
structure LoopRel (cfg : Config) (random : Bool) (c : List StepRec) (s t : Runner) : Prop where
  env : t.env_state = s.env_state
  rng : t.rng = s.rng
  wts : t.module_weights = s.module_weights
  lif : t.env_steps_lifetime = s.env_steps_lifetime
  cur : t.env_steps_current = s.env_steps_current
  nid : t.next_id = s.next_id
  obs : t.episode.currentObs = s.episode.currentObs
  don : t.episode.is_done = s.episode.is_done
  stp : t.episode.steps = c ++ s.episode.steps
  cam : random = false →
    t.cached_to_module.getD (cfg.env_to_module t.episode.currentObs) =
      s.cached_to_module.getD (cfg.env_to_module s.episode.currentObs)

theorem loopStep_sim (cfg : Config) (e r : Bool) (c : List StepRec) (s t : Runner)
    (h : LoopRel cfg r c s t) :
    ∃ c2, LoopRel cfg r c2 (loopStep cfg e r s).1 (loopStep cfg e r t).1 ∧
      flatSteps (loopStep cfg e r t).2.toList ++ (loopStep cfg e r t).1.episode.steps =
        c ++ (flatSteps (loopStep cfg e r s).2.toList ++ (loopStep cfg e r s).1.episode.steps) := by
  have hact1 : (actionsCore cfg e r t.episode.currentObs t.cached_to_module t.rng
      t.module_weights (t.env_steps_lifetime + t.env_steps_current)).1 =
      (actionsCore cfg e r s.episode.currentObs s.cached_to_module s.rng
      s.module_weights (s.env_steps_lifetime + s.env_steps_current)).1 := by
    unfold actionsCore
    cases r with
    | true => simp [h.obs, h.rng]
    | false => simp [h.cam rfl, h.wts, h.lif, h.cur]
  have hact2 : (actionsCore cfg e r t.episode.currentObs t.cached_to_module t.rng
      t.module_weights (t.env_steps_lifetime + t.env_steps_current)).2.1 =
      (actionsCore cfg e r s.episode.currentObs s.cached_to_module s.rng
      s.module_weights (s.env_steps_lifetime + s.env_steps_current)).2.1 := by
    unfold actionsCore
    cases r with
    | true => simp [h.rng]
    | false => simp [h.rng]
  have hact3 : r = false →
      (actionsCore cfg e r t.episode.currentObs t.cached_to_module t.rng
        t.module_weights (t.env_steps_lifetime + t.env_steps_current)).2.2 = none ∧
      (actionsCore cfg e r s.episode.currentObs s.cached_to_module s.rng
        s.module_weights (s.env_steps_lifetime + s.env_steps_current)).2.2 = none := by
    intro hr; subst hr; unfold actionsCore; simp
  have hstep : cfg.env.stepf t.env_state (actionsCore cfg e r t.episode.currentObs
      t.cached_to_module t.rng t.module_weights
      (t.env_steps_lifetime + t.env_steps_current)).1 =
      cfg.env.stepf s.env_state (actionsCore cfg e r s.episode.currentObs
      s.cached_to_module s.rng s.module_weights
      (s.env_steps_lifetime + s.env_steps_current)).1 := by
    rw [h.env, hact1]
  cases hD : (cfg.env.stepf s.env_state (actionsCore cfg e r s.episode.currentObs
      s.cached_to_module s.rng s.module_weights
      (s.env_steps_lifetime + s.env_steps_current)).1).allDone with
  | false =>
    refine ⟨c, ?_, ?_⟩
    · refine ⟨?_, ?_, ?_, ?_, ?_, ?_, ?_, ?_, ?_, ?_⟩ <;>
        (simp only [loopStep, add_env_step_is_done]
         simp only [hstep]
         simp only [hact1, hact2]
         simp [hD, h.env, h.rng, h.wts, h.lif, h.cur, h.nid, h.obs, h.stp,
               List.append_assoc]) <;>
        (intro hr
         subst hr
         simp [actionsCore])
    · simp only [loopStep, add_env_step_is_done]
      simp only [hstep]
      simp only [hact1, hact2]
      simp [hD, h.stp, List.append_assoc]
  | true =>
    refine ⟨[], ?_, ?_⟩
    · refine ⟨?_, ?_, ?_, ?_, ?_, ?_, ?_, ?_, ?_, ?_⟩ <;>
        (simp only [loopStep, add_env_step_is_done]
         simp only [hstep]
         simp only [hact1, hact2]
         simp [hD, h.env, h.rng, h.wts, h.lif, h.cur, h.nid]) <;>
        (intro hr
         subst hr
         simp [actionsCore])
    · simp only [loopStep, add_env_step_is_done]
      simp only [hstep]
      simp only [hact1, hact2]
      cases hm : cfg.has_module <;> simp [hm, hD, h.stp, List.append_assoc]

/-- The recorded content produced by k loop iterations (returned done
episodes followed by the steps still held by the in-flight episode) of the
longer run equals the content of the chunked run prefixed by the steps the
chunked run already returned at the call boundary. -/
theorem stepLoop_sim (cfg : Config) (e r : Bool) (k : Nat) :
    ∀ (c : List StepRec) (s t : Runner), LoopRel cfg r c s t →
    flatSteps (stepLoop cfg e r k t).2 ++ (stepLoop cfg e r k t).1.episode.steps =
      c ++ (flatSteps (stepLoop cfg e r k s).2 ++ (stepLoop cfg e r k s).1.episode.steps) := by
  induction k with
  | zero => intro c s t h; simp [stepLoop, h.stp]
  | succ n ih =>
    intro c s t h
    obtain ⟨c2, hrel, heq⟩ := loopStep_sim cfg e r c s t h
    have hih := ih c2 (loopStep cfg e r s).1 (loopStep cfg e r t).1 hrel
    have hstp := hrel.stp
    simp only [stepLoop, flatSteps_append, List.append_assoc]
    -- cancel the in-flight steps from the one-step equation
    have heq2 : flatSteps (loopStep cfg e r t).2.toList ++ c2 =
        c ++ flatSteps (loopStep cfg e r s).2.toList := by
      have h3 : flatSteps (loopStep cfg e r t).2.toList ++ c2 ++ (loopStep cfg e r s).1.episode.steps =
          c ++ flatSteps (loopStep cfg e r s).2.toList ++ (loopStep cfg e r s).1.episode.steps := by
        have h4 := heq
        rw [hstp] at h4
        simpa [List.append_assoc] using h4
      exact List.append_cancel_right h3
    calc flatSteps (loopStep cfg e r t).2.toList ++
          (flatSteps (stepLoop cfg e r n (loopStep cfg e r t).1).2 ++
           (stepLoop cfg e r n (loopStep cfg e r t).1).1.episode.steps)
        = flatSteps (loopStep cfg e r t).2.toList ++
          (c2 ++ (flatSteps (stepLoop cfg e r n (loopStep cfg e r s).1).2 ++
           (stepLoop cfg e r n (loopStep cfg e r s).1).1.episode.steps)) := by rw [hih]
      _ = (flatSteps (loopStep cfg e r t).2.toList ++ c2) ++
          (flatSteps (stepLoop cfg e r n (loopStep cfg e r s).1).2 ++
           (stepLoop cfg e r n (loopStep cfg e r s).1).1.episode.steps) := by
            simp [List.append_assoc]
      _ = c ++ (flatSteps (loopStep cfg e r s).2.toList ++
          (flatSteps (stepLoop cfg e r n (loopStep cfg e r s).1).2 ++
           (stepLoop cfg e r n (loopStep cfg e r s).1).1.episode.steps)) := by
            rw [heq2]; simp [List.append_assoc]

theorem loopStep_cached (cfg : Config) (e : Bool) (s : Runner) :
    (loopStep cfg e false s).1.cached_to_module = none := by
  unfold loopStep
  dsimp only
  split <;> simp [actionsCore]

theorem stepLoop_cached (cfg : Config) (e : Bool) (k : Nat) : ∀ s : Runner,
    (stepLoop cfg e false (k+1) s).1.cached_to_module = none := by
  induction k with
  | zero => intro s; simpa [stepLoop] using loopStep_cached cfg e (s := s)
  | succ n ih => intro s; simp only [stepLoop]; exact ih _

theorem resetIfNeeded_needs (cfg : Config) (f : Bool) (s0 : Runner) :
    (resetIfNeeded cfg f s0).needs_initial_reset = false := by
  unfold resetIfNeeded
  split
  · rfl
  · rename_i h
    simp only [Bool.or_eq_true, not_or] at h
    simpa using h.2

theorem resetIfNeeded_skip (cfg : Config) (s : Runner) (h : s.needs_initial_reset = false) :
    resetIfNeeded cfg false s = s := by
  unfold resetIfNeeded
  simp [h]

theorem finishTimesteps_flat (cfg : Config) (st : Runner × List MAEpisode) :
    flatSteps (finishTimesteps cfg st).1 = flatSteps st.2 ++ st.1.episode.steps := by
  unfold finishTimesteps
  dsimp only
  rcases eq_or_ne st.1.episode.steps [] with hs | hs
  · split <;> split <;> simp_all [flatSteps_append]
  · have hT : 0 < st.1.episode.env_t := by
      have := List.length_pos.mpr hs
      unfold MAEpisode.env_t
      omega
    split <;> simp_all [flatSteps_append]

theorem finishTimesteps_state (cfg : Config) (st : Runner × List MAEpisode) :
    (finishTimesteps cfg st).2.env_state = st.1.env_state ∧
    (finishTimesteps cfg st).2.rng = st.1.rng ∧
    (finishTimesteps cfg st).2.module_weights = st.1.module_weights ∧
    (finishTimesteps cfg st).2.env_steps_lifetime = st.1.env_steps_lifetime ∧
    (finishTimesteps cfg st).2.env_steps_current = st.1.env_steps_current ∧
    (finishTimesteps cfg st).2.next_id = st.1.next_id ∧
    (finishTimesteps cfg st).2.needs_initial_reset = st.1.needs_initial_reset ∧
    (finishTimesteps cfg st).2.episode.currentObs = st.1.episode.currentObs ∧
    (finishTimesteps cfg st).2.episode.is_done = st.1.episode.is_done ∧
    (finishTimesteps cfg st).2.episode.steps = [] ∧
    (finishTimesteps cfg st).2.cached_to_module =
      (if cfg.has_module then some (cfg.env_to_module st.1.episode.currentObs)
       else st.1.cached_to_module) := by
  unfold finishTimesteps
  dsimp only
  split <;> split <;> simp_all [MAEpisode.cut]

/-- Claim C1.  Chunk transparency of the fixed-timestep driver: for every
environment and fixed configuration, sampling n timesteps and then m more
timesteps without a forced reset yields, over all returned episode
chunks, exactly the combined sequence of recorded transitions (per-agent
observations, actions and rewards, in order) of a single call sampling
n + m timesteps; the cut/continuation boundary between the two calls
adds, drops and reorders nothing.  The hypothesis states that the cached
env-to-module look-ahead of the starting state, if present, holds the
value of the connector on the current observations of the in-flight episode; this
is true in every reachable state, since the cache is only ever written by
a connector pass over the in-flight episode and cleared on resets, and it
is irrelevant in random-action mode. -/
theorem sample_timesteps_chunk_transparent (cfg : Config) (n m : Nat) (e r f : Bool)
    (s0 : Runner)
    (hc : r = true ∨ s0.cached_to_module = none ∨
      s0.cached_to_module = some (cfg.env_to_module s0.episode.currentObs)) :
    flatSteps (sampleTimesteps cfg (n + m) e r f s0).1 =
      flatSteps (sampleTimesteps cfg n e r f s0).1 ++
      flatSteps (sampleTimesteps cfg m e r false (sampleTimesteps cfg n e r f s0).2).1 := by
  obtain ⟨hN1, hN2, hN3, hN4, hN5, hN6, hN7, hN8, hN9, hN10, hN11⟩ :=
    finishTimesteps_state cfg (stepLoop cfg e r n (resetIfNeeded cfg f s0))
  have hneeds : (sampleTimesteps cfg n e r f s0).2.needs_initial_reset = false := by
    unfold sampleTimesteps
    rw [hN7, (stepLoop_fixed cfg e r n (resetIfNeeded cfg f s0)).1]
    exact resetIfNeeded_needs cfg f s0
  have hskip : resetIfNeeded cfg false (sampleTimesteps cfg n e r f s0).2 =
      (sampleTimesteps cfg n e r f s0).2 := resetIfNeeded_skip cfg _ hneeds
  have hrel : LoopRel cfg r (stepLoop cfg e r n (resetIfNeeded cfg f s0)).1.episode.steps
      (sampleTimesteps cfg n e r f s0).2
      (stepLoop cfg e r n (resetIfNeeded cfg f s0)).1 := by
    unfold sampleTimesteps
    refine ⟨hN1.symm, hN2.symm, hN3.symm, hN4.symm, hN5.symm, hN6.symm, hN8.symm, hN9.symm,
            ?_, ?_⟩
    · rw [hN10]
      simp
    · intro hr
      subst hr
      rw [hN8, hN11]
      cases hm : cfg.has_module with
      | true =>
        simp only [if_pos rfl, Option.getD_some]
        cases n with
        | zero =>
          simp only [stepLoop]
          unfold resetIfNeeded
          split
          · simp
          · rcases hc with hc | hc | hc
            · exact absurd hc (by simp)
            · simp [hc]
            · simp [hc]
        | succ k =>
          rw [stepLoop_cached cfg e k _]
          simp
      | false => simp
  have hsim := stepLoop_sim cfg e r m
    (stepLoop cfg e r n (resetIfNeeded cfg f s0)).1.episode.steps
    (sampleTimesteps cfg n e r f s0).2
    (stepLoop cfg e r n (resetIfNeeded cfg f s0)).1 hrel
  unfold sampleTimesteps at hskip hsim ⊢
  rw [hskip]
  rw [stepLoop_add cfg e r n m (resetIfNeeded cfg f s0)]
  rw [finishTimesteps_flat, finishTimesteps_flat, finishTimesteps_flat]
  dsimp only
  rw [flatSteps_append]
  rw [List.append_assoc]
  rw [hsim]
  simp [List.append_assoc]

theorem loopStep_done_ep (cfg : Config) (e r : Bool) (s : Runner) :
    ((loopStep cfg e r s).1.episode.terminalPasses = s.episode.terminalPasses ∨
     (loopStep cfg e r s).1.episode.terminalPasses = 0) ∧
    (∀ ep, (loopStep cfg e r s).2 = some ep → ep.is_done = true ∧ ep.finalized = true ∧
      ep.terminalPasses = s.episode.terminalPasses + (if cfg.has_module then 1 else 0)) := by
  unfold loopStep
  dsimp only
  split
  · rename_i hdone
    constructor
    · right
      simp
    · intro ep hep
      simp only [Option.some.injEq] at hep
      subst hep
      cases hm : cfg.has_module <;>
        simp_all [envToModulePass]
  · rename_i hdone
    constructor
    · left
      simp
    · intro ep hep
      simp at hep

theorem stepLoop_dones (cfg : Config) (e r : Bool) (k : Nat) : ∀ s : Runner,
    s.episode.terminalPasses = 0 →
    ((∀ ep ∈ (stepLoop cfg e r k s).2, ep.is_done = true ∧ ep.finalized = true ∧
        ep.terminalPasses = (if cfg.has_module then 1 else 0)) ∧
      (stepLoop cfg e r k s).1.episode.terminalPasses = 0) := by
  induction k with
  | zero => intro s h0; simpa [stepLoop] using h0
  | succ n ih =>
    intro s h0
    obtain ⟨htp, hsome⟩ := loopStep_done_ep cfg e r s
    have htp0 : (loopStep cfg e r s).1.episode.terminalPasses = 0 := by
      rcases htp with h | h
      · rw [h, h0]
      · exact h
    obtain ⟨ihm, ihtp⟩ := ih (loopStep cfg e r s).1 htp0
    simp only [stepLoop]
    refine ⟨?_, ihtp⟩
    intro ep hep
    rw [List.mem_append] at hep
    rcases hep with hep | hep
    · cases ho : (loopStep cfg e r s).2 with
      | none => rw [ho] at hep; simp at hep
      | some d =>
        rw [ho] at hep
        simp only [Option.toList_some, List.mem_singleton] at hep
        subst hep
        obtain ⟨h1, h2, h3⟩ := hsome _ ho
        rw [h0] at h3
        simp only [Nat.zero_add] at h3
        exact ⟨h1, h2, h3⟩
    · exact ihm ep hep

theorem epLoop_spec (cfg : Config) (e r : Bool) (fuel : Nat) :
    ∀ (left : Nat) (ep : MAEpisode) (s sE : Runner) (ds : List MAEpisode),
    epLoop cfg e r fuel left ep s = some (sE, ds) →
    ds.length = left ∧
    (∀ d ∈ ds, d.is_done = true ∧ d.finalized = true) ∧
    (ep.terminalPasses = 0 → ∀ d ∈ ds, d.terminalPasses = (if cfg.has_module then 1 else 0)) ∧
    sE.needs_initial_reset = s.needs_initial_reset ∧
    sE.episode = s.episode ∧
    sE.done_eps = s.done_eps ∧
    sE.ongoing = s.ongoing := by
  induction fuel with
  | zero =>
    intro left ep s sE ds h
    cases left with
    | zero =>
      simp only [epLoop, Option.some.injEq, Prod.mk.injEq] at h
      obtain ⟨h1, h2⟩ := h
      subst h1; subst h2
      simp
    | succ l => simp [epLoop] at h
  | succ fuel ih =>
    intro left ep s sE ds h
    cases left with
    | zero =>
      simp only [epLoop, Option.some.injEq, Prod.mk.injEq] at h
      obtain ⟨h1, h2⟩ := h
      subst h1; subst h2
      simp
    | succ l =>
      rw [epLoop] at h
      dsimp only at h
      split at h
      · rename_i hdone
        split at h
        · rename_i hl
          subst hl
          simp only [Option.some.injEq, Prod.mk.injEq] at h
          obtain ⟨h1, h2⟩ := h
          subst h1; subst h2
          refine ⟨rfl, ?_, ?_, rfl, rfl, rfl, rfl⟩
          · intro d hd
            simp only [List.mem_singleton] at hd
            subst hd
            cases hm : cfg.has_module <;> simp_all [envToModulePass]
          · intro h0 d hd
            simp only [List.mem_singleton] at hd
            subst hd
            cases hm : cfg.has_module <;> simp_all [envToModulePass]
        · rename_i hl
          split at h
          · exact absurd h (by simp)
          · rename_i sE2 ds2 hrec
            simp only [Option.some.injEq, Prod.mk.injEq] at h
            obtain ⟨h1, h2⟩ := h
            subst h1
            obtain ⟨ih1, ih2, ih3, ih4, ih5, ih6, ih7⟩ := ih l _ _ _ _ hrec
            subst h2
            refine ⟨by simp [ih1], ?_, ?_, by simpa using ih4, by simpa using ih5,
                    by simpa using ih6, by simpa using ih7⟩
            · intro d hd
              rcases List.mem_cons.mp hd with hd | hd
              · subst hd
                cases hm : cfg.has_module <;> simp_all [envToModulePass]
              · exact ih2 d hd
            · intro h0 d hd
              rcases List.mem_cons.mp hd with hd | hd
              · subst hd
                cases hm : cfg.has_module <;> simp_all [envToModulePass]
              · exact ih3 (by simp) d hd
      · rename_i hdone
        obtain ⟨ih1, ih2, ih3, ih4, ih5, ih6, ih7⟩ := ih (l+1) _ _ _ _ h
        refine ⟨ih1, ih2, ?_, by simpa using ih4, by simpa using ih5,
                by simpa using ih6, by simpa using ih7⟩
        intro h0 d hd
        exact ih3 (by simpa using h0) d hd

theorem loopStep_id_lb (cfg : Config) (e r : Bool) (s : Runner) (B : Nat)
    (h1 : B ≤ s.episode.id_) (h2 : B ≤ s.next_id) :
    B ≤ (loopStep cfg e r s).1.episode.id_ ∧ B ≤ (loopStep cfg e r s).1.next_id := by
  unfold loopStep
  dsimp only
  split
  · constructor <;> simp <;> omega
  · constructor <;> simpa

theorem stepLoop_id_lb (cfg : Config) (e r : Bool) (k : Nat) : ∀ (s : Runner) (B : Nat),
    B ≤ s.episode.id_ → B ≤ s.next_id →
    B ≤ (stepLoop cfg e r k s).1.episode.id_ ∧ B ≤ (stepLoop cfg e r k s).1.next_id := by
  induction k with
  | zero => intro s B h1 h2; simpa [stepLoop] using ⟨h1, h2⟩
  | succ n ih =>
    intro s B h1 h2
    obtain ⟨g1, g2⟩ := loopStep_id_lb cfg e r s B h1 h2
    simpa [stepLoop] using ih (loopStep cfg e r s).1 B g1 g2

theorem epLoop_id_lb (cfg : Config) (e r : Bool) (fuel : Nat) :
    ∀ (left : Nat) (ep : MAEpisode) (s sE : Runner) (ds : List MAEpisode) (B : Nat),
    epLoop cfg e r fuel left ep s = some (sE, ds) →
    B ≤ ep.id_ → B ≤ s.next_id →
    ∀ d ∈ ds, B ≤ d.id_ := by
  induction fuel with
  | zero =>
    intro left ep s sE ds B h hep hnid d hd
    cases left with
    | zero =>
      simp only [epLoop, Option.some.injEq, Prod.mk.injEq] at h
      rw [← h.2] at hd
      simp at hd
    | succ l => simp [epLoop] at h
  | succ fuel ih =>
    intro left ep s sE ds B h hep hnid d hd
    cases left with
    | zero =>
      simp only [epLoop, Option.some.injEq, Prod.mk.injEq] at h
      rw [← h.2] at hd
      simp at hd
    | succ l =>
      rw [epLoop] at h
      dsimp only at h
      split at h
      · rename_i hdone
        split at h
        · rename_i hl
          simp only [Option.some.injEq, Prod.mk.injEq] at h
          rw [← h.2] at hd
          simp only [List.mem_singleton] at hd
          subst hd
          cases hm : cfg.has_module <;> simp_all
        · rename_i hl
          split at h
          · exact absurd h (by simp)
          · rename_i sE2 ds2 hrec
            simp only [Option.some.injEq, Prod.mk.injEq] at h
            rw [← h.2] at hd
            rcases List.mem_cons.mp hd with hd | hd
            · subst hd
              cases hm : cfg.has_module <;> simp_all
            · refine ih l _ _ _ _ B hrec (by simpa using hnid) (by simp; omega) d hd
      · rename_i hdone
        exact ih (l+1) _ _ _ _ B h (by simpa using hep) (by simpa using hnid) d hd

theorem sampleEpisodes_env_indep (cfg : Config) (fuel k : Nat) (e r : Bool) (s : Runner)
    (z : Nat) :
    sampleEpisodes cfg fuel k e r { s with env_state := z } =
      sampleEpisodes cfg fuel k e r s := rfl

theorem loopStep_ep_not_done (cfg : Config) (e r : Bool) (s : Runner) :
    (loopStep cfg e r s).1.episode.is_done = false := by
  unfold loopStep
  dsimp only
  split
  · simp
  · rename_i h
    simpa using h

theorem stepLoop_ep_not_done (cfg : Config) (e r : Bool) (k : Nat) : ∀ s : Runner,
    s.episode.is_done = false → (stepLoop cfg e r k s).1.episode.is_done = false := by
  induction k with
  | zero => intro s h; simpa [stepLoop] using h
  | succ n ih =>
    intro s h
    simpa [stepLoop] using ih (loopStep cfg e r s).1 (loopStep_ep_not_done cfg e r s)

theorem resetIfNeeded_tp (cfg : Config) (f : Bool) (s : Runner)
    (h : s.episode.terminalPasses = 0) :
    (resetIfNeeded cfg f s).episode.terminalPasses = 0 := by
  unfold resetIfNeeded
  split <;> simp [h]

theorem resetIfNeeded_done (cfg : Config) (f : Bool) (s : Runner)
    (h : s.episode.is_done = false) :
    (resetIfNeeded cfg f s).episode.is_done = false := by
  unfold resetIfNeeded
  split <;> simp [h]

theorem finishTimesteps_mem (cfg : Config) (st : Runner × List MAEpisode) :
    ∀ ep ∈ (finishTimesteps cfg st).1, ep ∈ st.2 ∨ ep.is_done = st.1.episode.is_done := by
  unfold finishTimesteps
  dsimp only
  split <;> split <;> intro ep hep <;>
    first
      | exact Or.inl hep
      | (rcases List.mem_append.mp hep with hin | hin
         · exact Or.inl hin
         · right
           simp only [List.mem_singleton] at hin
           subst hin
           simp)

/-- Claim C5.  The fixed-episode driver: whenever the call completes
within its step budget, it returns exactly k finalized episodes, each
with is_done true; it sets the needs-initial-reset flag so that a
subsequent timestep-mode call starts from a fresh reset; its result is
independent of the pre-call environment state (the environment is
force-reset at the start of the call); and every returned episode is a
freshly created record whose id is strictly beyond the id of the in-flight
episode held before the call (episode-count sampling never reuses a chunk
of a previous call; the hypothesis that the id of the in-flight episode is
below the fresh-id source of the runner is an invariant of reachable states). -/
theorem sample_episodes_count_and_reset (cfg : Config) (fuel k : Nat) (e r : Bool)
    (s : Runner) (out : List MAEpisode) (sE : Runner)
    (h : sampleEpisodes cfg fuel k e r s = some (out, sE)) :
    out.length = k ∧
    (∀ d ∈ out, d.is_done = true ∧ d.finalized = true) ∧
    sE.needs_initial_reset = true ∧
    (∀ z : Nat, sampleEpisodes cfg fuel k e r { s with env_state := z } = some (out, sE)) ∧
    (s.episode.id_ < s.next_id → ∀ d ∈ out, s.episode.id_ < d.id_) := by
  rw [sampleEpisodes] at h
  dsimp only at h
  split at h
  · exact absurd h (by simp)
  · rename_i s1 ds hrec
    simp only [Option.some.injEq, Prod.mk.injEq] at h
    obtain ⟨h1, h2⟩ := h
    subst h1
    subst h2
    obtain ⟨g1, g2, g3, g4, g5, g6, g7⟩ := epLoop_spec cfg e r fuel k _ _ _ _ hrec
    refine ⟨g1, g2, ?_, ?_, ?_⟩
    · simpa using g4
    · intro z
      rw [sampleEpisodes_env_indep cfg fuel k e r s z, sampleEpisodes]
      dsimp only
      rw [hrec]
    · intro hid d hd
      have := epLoop_id_lb cfg e r fuel k _ _ _ _ s.next_id hrec (by simp) (by simp) d hd
      omega

/-- Concrete single-agent environment terminating at every step, used to
instantiate theorems with hypotheses at concrete inputs. -/
def wEnv : Env where
  resetState := 0
  resetObs := [(0, 5)]
  stepf := fun st _ => ⟨st + 1, [(0, 6)], [(0, (1 : Int))], true, 1⟩

/-- Concrete configuration with an RLModule present. -/
def wCfg : Config where
  policy_mapping_fn := fun _ => 0
  episode_lookback_horizon := 1
  rollout_fragment_length := 2
  batch_mode_truncate_episodes := true
  explore := true
  env := wEnv
  has_module := true
  env_to_module := fun obs => (obs.map (fun p => p.1 + p.2)).sum
  forward_exploration := fun w i t => w + i + t
  forward_inference := fun w i => w + i
  module_to_env := fun o => [(0, o % 3)]
  action_space_sample := fun rg => [(0, rg), (1, rg + 1)]

/-- Concrete configuration of a pure random-action setup whose RLModule
could not be built (the legitimate no-module state). -/
def wCfgNoModule : Config :=
  { wCfg with has_module := false }

/-- A concrete fresh runner state. -/
def wRunner0 : Runner where
  env_state := 99
  rng := 0
  needs_initial_reset := true
  episode := newEpisode 1000
  cached_to_module := none
  done_eps := []
  ongoing := []
  weights_seq_no := 0
  module_weights := 3
  env_steps_lifetime := 0
  env_steps_current := 0
  next_id := 1001
  env_to_module_state := 0
  module_to_env_state := 0

theorem sample_episodes_count_and_reset_witness :
    ((sampleEpisodes wCfg 2 2 true false wRunner0).getD ([], wRunner0)).1.length = 2 ∧
    (∀ d ∈ ((sampleEpisodes wCfg 2 2 true false wRunner0).getD ([], wRunner0)).1,
      d.is_done = true ∧ d.finalized = true) ∧
    ((sampleEpisodes wCfg 2 2 true false wRunner0).getD
      ([], wRunner0)).2.needs_initial_reset = true ∧
    (∀ z : Nat, sampleEpisodes wCfg 2 2 true false { wRunner0 with env_state := z } =
      some (((sampleEpisodes wCfg 2 2 true false wRunner0).getD ([], wRunner0)).1,
            ((sampleEpisodes wCfg 2 2 true false wRunner0).getD ([], wRunner0)).2)) ∧
    (wRunner0.episode.id_ < wRunner0.next_id →
      ∀ d ∈ ((sampleEpisodes wCfg 2 2 true false wRunner0).getD ([], wRunner0)).1,
        wRunner0.episode.id_ < d.id_) :=
  sample_episodes_count_and_reset wCfg 2 2 true false wRunner0 _ _ (by rfl)

/-- Claim C6, amended: when a decision module is present, every episode
that becomes done receives exactly one additional env-to-module connector
pass over the record holding its terminal observation, in both sampling
drivers; the two reachability hypotheses say the in-flight episode has
received no terminal pass and is not done at call entry (fresh and cut
episodes always satisfy both). -/
theorem terminal_connector_pass_once (cfg : Config) (n fuel k : Nat) (e r f : Bool)
    (s : Runner) (hmod : cfg.has_module = true)
    (htp : s.episode.terminalPasses = 0) (hd : s.episode.is_done = false) :
    (∀ ep ∈ (sampleTimesteps cfg n e r f s).1, ep.is_done = true → ep.terminalPasses = 1) ∧
    (∀ out sE, sampleEpisodes cfg fuel k e r s = some (out, sE) →
      ∀ ep ∈ out, ep.terminalPasses = 1) := by
  constructor
  · intro ep hep hdone
    have hmem := finishTimesteps_mem cfg (stepLoop cfg e r n (resetIfNeeded cfg f s)) ep hep
    rcases hmem with hin | heq
    · have := (stepLoop_dones cfg e r n (resetIfNeeded cfg f s)
        (resetIfNeeded_tp cfg f s htp)).1 ep hin
      rw [this.2.2, hmod]
      simp
    · rw [stepLoop_ep_not_done cfg e r n (resetIfNeeded cfg f s)
        (resetIfNeeded_done cfg f s hd)] at heq
      rw [heq] at hdone
      simp at hdone
  · intro out sE hcall ep hep
    rw [sampleEpisodes] at hcall
    dsimp only at hcall
    split at hcall
    · exact absurd hcall (by simp)
    · rename_i s1 ds hrec
      simp only [Option.some.injEq, Prod.mk.injEq] at hcall
      obtain ⟨h1, h2⟩ := hcall
      subst h1
      have := (epLoop_spec cfg e r fuel k _ _ _ _ hrec).2.2.1 (by simp) ep hep
      rw [this, hmod]
      simp

theorem terminal_connector_pass_once_witness :
    (∀ ep ∈ (sampleTimesteps wCfg 1 true false true wRunner0).1,
      ep.is_done = true → ep.terminalPasses = 1) ∧
    (∀ out sE, sampleEpisodes wCfg 2 1 true false wRunner0 = some (out, sE) →
      ∀ ep ∈ out, ep.terminalPasses = 1) :=
  terminal_connector_pass_once wCfg 1 2 1 true false true wRunner0 rfl rfl rfl

/-- Claim C6 counterexample: in a pure random-action configuration whose
RLModule could not be built (a legitimate state per the error-handling
design), the fixed-timestep driver returns a terminated episode over
which no terminal env-to-module connector pass was performed, refuting
the claim that the pass happens for every terminating episode under any
sampling mode. -/
theorem terminal_pass_skipped_without_module :
    (sampleTimesteps wCfgNoModule 1 true true true wRunner0).1.map
      (fun ep => (ep.is_done, ep.terminalPasses)) = [(true, 0)] := by
  rfl

/-- Witness for claim C1 at a concrete input. -/
theorem sample_timesteps_chunk_transparent_witness :
    flatSteps (sampleTimesteps wCfg (2 + 3) true false true wRunner0).1 =
      flatSteps (sampleTimesteps wCfg 2 true false true wRunner0).1 ++
      flatSteps (sampleTimesteps wCfg 3 true false false
        (sampleTimesteps wCfg 2 true false true wRunner0).2).1 :=
  sample_timesteps_chunk_transparent wCfg 2 3 true false true wRunner0 (Or.inr (Or.inl rfl))

theorem lookup_append {α : Type} (l1 l2 : AA α) (k : Nat) :
    (l1 ++ l2).lookup k = ((l1.lookup k).orElse (fun _ => l2.lookup k)) := by
  induction l1 with
  | nil => simp
  | cons p l ih =>
    obtain ⟨a, b⟩ := p
    by_cases h : k = a
    · subst h
      simp [List.lookup]
    · simp [List.lookup, beq_eq_false_iff_ne.mpr h, ih]

theorem lookup_map_upd {α : Type} (l : AA α) (k : Nat) (f : α → α) :
    (l.map (fun p => if p.1 = k then (p.1, f p.2) else p)).lookup k =
      (l.lookup k).map f := by
  induction l with
  | nil => simp
  | cons p l ih =>
    obtain ⟨a, b⟩ := p
    rw [List.map_cons]
    by_cases h : a = k
    · subst h
      rw [show (if (a, b).1 = a then ((a, b).1, f (a, b).2) else (a, b)) = (a, f b) by simp]
      simp [List.lookup]
    · rw [show (if (a, b).1 = k then ((a, b).1, f (a, b).2) else (a, b)) = (a, b) by
        simp [h]]
      simp [List.lookup, beq_eq_false_iff_ne.mpr (fun hh : k = a => h hh.symm), ih]

theorem lookup_map_ne {α : Type} (l : AA α) (k k2 : Nat) (f : α → α) (h : k2 ≠ k) :
    (l.map (fun p => if p.1 = k then (p.1, f p.2) else p)).lookup k2 = l.lookup k2 := by
  induction l with
  | nil => simp
  | cons p l ih =>
    obtain ⟨a, b⟩ := p
    rw [List.map_cons]
    by_cases ha : a = k
    · subst ha
      rw [show (if (a, b).1 = a then ((a, b).1, f (a, b).2) else (a, b)) = (a, f b) by simp]
      simp [List.lookup, beq_eq_false_iff_ne.mpr h, ih]
    · rw [show (if (a, b).1 = k then ((a, b).1, f (a, b).2) else (a, b)) = (a, b) by
        simp [ha]]
      by_cases hk2 : k2 = a
      · subst hk2
        simp [List.lookup]
      · simp [List.lookup, beq_eq_false_iff_ne.mpr hk2, ih]

theorem elim_append_getD {α : Type} (o : Option (List α)) (x : List α) :
    o.elim x (fun l => l ++ x) = o.getD [] ++ x := by
  cases o <;> simp

theorem AAupd_lookup_self {α : Type} (l : AA α) (k : Nat) (f : α → α) (mk : α) :
    (AAupd l k f mk).lookup k = some ((l.lookup k).elim mk f) := by
  unfold AAupd
  cases h : l.lookup k with
  | none =>
    rw [if_neg (by simp [h])]
    rw [lookup_append, h]
    simp [List.lookup]
  | some v =>
    rw [if_pos (by simp [h])]
    rw [lookup_map_upd, h]
    simp

theorem AAupd_lookup_ne {α : Type} (l : AA α) (k k2 : Nat) (f : α → α) (mk : α)
    (h : k2 ≠ k) :
    (AAupd l k f mk).lookup k2 = l.lookup k2 := by
  unfold AAupd
  split
  · exact lookup_map_ne l k k2 f h
  · rw [lookup_append]
    cases h2 : l.lookup k2 with
    | none => simp [h2, List.lookup, beq_eq_false_iff_ne.mpr h]
    | some v => simp [h2]

theorem envToModulePass_eq_self (ep : MAEpisode) (h : ep.is_done = false) :
    envToModulePass ep = ep := by
  unfold envToModulePass
  simp [h]

/-- Claim C7.  At the end of a fixed-timestep call, writing L for the
state reached after the driver loop: when the pre-cut in-flight episode
has a positive cumulative step count, the returned list is exactly the
done episodes followed by the finalized cut chunk, and that chunk is
appended to the Ongoing-Episode Registry under the episode id;
when the count is zero, the returned list is exactly the done episodes,
the discarded chunk holds no recorded steps, and the registry is left
untouched.  Consequently every returned not-yet-done chunk has a positive
cumulative step count: a cut of an episode with zero recorded steps never
surfaces a chunk.  The hypothesis, an invariant of reachable states, says
the in-flight episode is not done at call entry. -/
theorem cut_chunk_surfacing (cfg : Config) (n : Nat) (e r f : Bool) (s : Runner)
    (hd : s.episode.is_done = false) :
    (0 < (stepLoop cfg e r n (resetIfNeeded cfg f s)).1.episode.env_t →
      (sampleTimesteps cfg n e r f s).1 =
        (stepLoop cfg e r n (resetIfNeeded cfg f s)).2 ++
          [(stepLoop cfg e r n (resetIfNeeded cfg f s)).1.episode.finalize true] ∧
      (sampleTimesteps cfg n e r f s).2.ongoing.lookup
          (stepLoop cfg e r n (resetIfNeeded cfg f s)).1.episode.id_ =
        some ((((stepLoop cfg e r n (resetIfNeeded cfg f s)).1.ongoing.lookup
            (stepLoop cfg e r n (resetIfNeeded cfg f s)).1.episode.id_).getD []) ++
          [(stepLoop cfg e r n (resetIfNeeded cfg f s)).1.episode.finalize true])) ∧
    ((stepLoop cfg e r n (resetIfNeeded cfg f s)).1.episode.env_t = 0 →
      (sampleTimesteps cfg n e r f s).1 = (stepLoop cfg e r n (resetIfNeeded cfg f s)).2 ∧
      (stepLoop cfg e r n (resetIfNeeded cfg f s)).1.episode.steps = [] ∧
      (sampleTimesteps cfg n e r f s).2.ongoing =
        (stepLoop cfg e r n (resetIfNeeded cfg f s)).1.ongoing) := by
  have hnd : (stepLoop cfg e r n (resetIfNeeded cfg f s)).1.episode.is_done = false :=
    stepLoop_ep_not_done cfg e r n (resetIfNeeded cfg f s) (resetIfNeeded_done cfg f s hd)
  have hpass : envToModulePass (stepLoop cfg e r n (resetIfNeeded cfg f s)).1.episode =
      (stepLoop cfg e r n (resetIfNeeded cfg f s)).1.episode :=
    envToModulePass_eq_self _ hnd
  constructor
  · intro hT
    unfold sampleTimesteps finishTimesteps
    dsimp only
    cases hm : cfg.has_module <;> simp only [hm, if_pos, if_neg, Bool.false_eq_true, ite_false,
      ite_true, hpass]
    · rw [if_pos hT]
      refine ⟨by simp, ?_⟩
      dsimp only
      rw [AAupd_lookup_self, elim_append_getD]
    · rw [if_pos (by simpa [hpass] using hT)]
      refine ⟨by simp [hpass], ?_⟩
      dsimp only
      rw [AAupd_lookup_self, elim_append_getD]
  · intro hT
    have hsteps : (stepLoop cfg e r n (resetIfNeeded cfg f s)).1.episode.steps = [] := by
      have := hT
      unfold MAEpisode.env_t at this
      exact List.length_eq_zero.mp (by omega)
    unfold sampleTimesteps finishTimesteps
    dsimp only
    cases hm : cfg.has_module <;> simp only [hm, Bool.false_eq_true, ite_false, ite_true, hpass]
    · rw [if_neg (by omega)]
      exact ⟨rfl, hsteps, rfl⟩
    · rw [if_neg (by omega)]
      exact ⟨rfl, hsteps, rfl⟩

theorem cut_chunk_surfacing_witness :
    (0 < (stepLoop wCfg true false 1 (resetIfNeeded wCfg true wRunner0)).1.episode.env_t →
      (sampleTimesteps wCfg 1 true false true wRunner0).1 =
        (stepLoop wCfg true false 1 (resetIfNeeded wCfg true wRunner0)).2 ++
          [(stepLoop wCfg true false 1 (resetIfNeeded wCfg true wRunner0)).1.episode.finalize
            true] ∧
      (sampleTimesteps wCfg 1 true false true wRunner0).2.ongoing.lookup
          (stepLoop wCfg true false 1 (resetIfNeeded wCfg true wRunner0)).1.episode.id_ =
        some ((((stepLoop wCfg true false 1 (resetIfNeeded wCfg true wRunner0)).1.ongoing.lookup
            (stepLoop wCfg true false 1 (resetIfNeeded wCfg true wRunner0)).1.episode.id_).getD
              []) ++
          [(stepLoop wCfg true false 1 (resetIfNeeded wCfg true wRunner0)).1.episode.finalize
            true])) ∧
    ((stepLoop wCfg true false 1 (resetIfNeeded wCfg true wRunner0)).1.episode.env_t = 0 →
      (sampleTimesteps wCfg 1 true false true wRunner0).1 =
        (stepLoop wCfg true false 1 (resetIfNeeded wCfg true wRunner0)).2 ∧
      (stepLoop wCfg true false 1 (resetIfNeeded wCfg true wRunner0)).1.episode.steps = [] ∧
      (sampleTimesteps wCfg 1 true false true wRunner0).2.ongoing =
        (stepLoop wCfg true false 1 (resetIfNeeded wCfg true wRunner0)).1.ongoing) :=
  cut_chunk_surfacing wCfg 1 true false true wRunner0 rfl

/-- Claim C8.  The public sample entry point rejects a call providing
both a timestep count and an episode count with an error raised before
any environment interaction (the error value carries no updated runner
state and is returned for every environment and runner state); and with
neither count provided it samples the configured rollout-fragment-length
timesteps when the batch mode is truncate_episodes, and exactly one full
episode otherwise. -/
theorem sample_arg_dispatch (cfg : Config) (fuel : Nat) (eArg : Option Bool)
    (r f : Bool) (s : Runner) :
    (∀ a b : Nat, sample cfg fuel (some a) (some b) eArg r f s = Except.error ()) ∧
    (sample cfg fuel none none eArg r f s =
      if cfg.batch_mode_truncate_episodes then
        Except.ok (some (sampleTimesteps cfg cfg.rollout_fragment_length
          (eArg.getD cfg.explore) r f s))
      else Except.ok (sampleEpisodes cfg fuel 1 (eArg.getD cfg.explore) r s)) := by
  constructor
  · intro a b
    rw [sample]
    simp
  · rw [sample]
    cases hb : cfg.batch_mode_truncate_episodes <;> simp [hb]

theorem resetIfNeeded_done_eps (cfg : Config) (f : Bool) (s : Runner) :
    (resetIfNeeded cfg f s).done_eps = s.done_eps := by
  unfold resetIfNeeded
  split <;> rfl

theorem finishTimesteps_done_eps (cfg : Config) (st : Runner × List MAEpisode) :
    (finishTimesteps cfg st).2.done_eps = st.1.done_eps ++ st.2 := by
  unfold finishTimesteps
  dsimp only
  split <;> split <;> rfl

theorem stepLoop_dones_done (cfg : Config) (e r : Bool) (k : Nat) : ∀ s : Runner,
    ∀ ep ∈ (stepLoop cfg e r k s).2, ep.is_done = true ∧ ep.finalized = true := by
  induction k with
  | zero => intro s ep hep; simp [stepLoop] at hep
  | succ n ih =>
    intro s ep hep
    simp only [stepLoop] at hep
    rw [List.mem_append] at hep
    rcases hep with hep | hep
    · cases ho : (loopStep cfg e r s).2 with
      | none => rw [ho] at hep; simp at hep
      | some d =>
        rw [ho] at hep
        simp only [Option.toList_some, List.mem_singleton] at hep
        subst hep
        have := (loopStep_done_ep cfg e r s).2 _ ho
        exact ⟨this.1, this.2.1⟩
    · exact ih (loopStep cfg e r s).1 ep hep

theorem AAupd_nil {α : Type} (k : Nat) (f : α → α) (mk : α) :
    AAupd ([] : AA α) k f mk = [(k, mk)] := by
  unfold AAupd
  simp

theorem finishTimesteps_ongoing_key (cfg : Config) (st : Runner × List MAEpisode) :
    (finishTimesteps cfg st).2.ongoing = st.1.ongoing ∨
    ∃ (fv : List MAEpisode → List MAEpisode) (mkv : List MAEpisode),
      (finishTimesteps cfg st).2.ongoing = AAupd st.1.ongoing st.1.episode.id_ fv mkv := by
  unfold finishTimesteps
  dsimp only
  split <;> split
  · right
    refine ⟨fun l => l ++ [(envToModulePass st.1.episode).finalize true],
      [(envToModulePass st.1.episode).finalize true], ?_⟩
    dsimp only
    rw [envToModulePass_id]
  · left
    rfl
  · right
    exact ⟨fun l => l ++ [st.1.episode.finalize true], [st.1.episode.finalize true], rfl⟩
  · left
    rfl

/-- Claim C9.  When a timestep-mode call takes the reset path (force_reset
or a pending needs-initial-reset), the Ongoing-Episode Registry is cleared
in its entirety: no key present before the call is present afterwards
(every previously returned chunk of a not-yet-done episode is discarded
and can never again be folded into metrics), and any key present after
the call belongs to an episode created during the call (its id is at or
beyond the pre-call fresh-id source).  The key-bound hypothesis is an
invariant of reachable states: registry keys are ids of episodes created
from the fresh-id source. -/
theorem reset_clears_ongoing_registry (cfg : Config) (n : Nat) (e r f : Bool) (s : Runner)
    (hreset : f = true ∨ s.needs_initial_reset = true)
    (hkeys : ∀ p ∈ s.ongoing, p.1 < s.next_id) :
    (∀ p ∈ s.ongoing, (sampleTimesteps cfg n e r f s).2.ongoing.lookup p.1 = none) ∧
    (∀ q ∈ (sampleTimesteps cfg n e r f s).2.ongoing, s.next_id ≤ q.1) := by
  have hcond : (f || s.needs_initial_reset) = true := by
    rcases hreset with h | h <;> simp [h]
  have hreseteq : resetIfNeeded cfg f s =
      { s with
        episode := (newEpisode s.next_id).add_env_reset cfg.policy_mapping_fn cfg.env.resetObs,
        next_id := s.next_id + 1,
        ongoing := [],
        env_state := cfg.env.resetState,
        cached_to_module := none,
        needs_initial_reset := false } := by
    unfold resetIfNeeded
    rw [if_pos hcond]
  have hloopOngoing : (stepLoop cfg e r n (resetIfNeeded cfg f s)).1.ongoing = [] := by
    rw [(stepLoop_fixed cfg e r n (resetIfNeeded cfg f s)).2.2.1, hreseteq]
  have hid : s.next_id ≤ (stepLoop cfg e r n (resetIfNeeded cfg f s)).1.episode.id_ := by
    have := stepLoop_id_lb cfg e r n (resetIfNeeded cfg f s) s.next_id
      (by rw [hreseteq]; simp) (by rw [hreseteq]; simp)
    exact this.1
  have hfin : (sampleTimesteps cfg n e r f s).2.ongoing = [] ∨
      ∃ v, (sampleTimesteps cfg n e r f s).2.ongoing =
        [((stepLoop cfg e r n (resetIfNeeded cfg f s)).1.episode.id_, v)] := by
    rcases finishTimesteps_ongoing_key cfg (stepLoop cfg e r n (resetIfNeeded cfg f s))
      with h | ⟨fv, mkv, h⟩
    · left
      rw [show (sampleTimesteps cfg n e r f s).2 =
        (finishTimesteps cfg (stepLoop cfg e r n (resetIfNeeded cfg f s))).2 from rfl, h]
      exact hloopOngoing
    · right
      refine ⟨mkv, ?_⟩
      rw [show (sampleTimesteps cfg n e r f s).2 =
        (finishTimesteps cfg (stepLoop cfg e r n (resetIfNeeded cfg f s))).2 from rfl, h,
        hloopOngoing, AAupd_nil]
  constructor
  · intro p hp
    have hlt : p.1 < s.next_id := hkeys p hp
    rcases hfin with h | ⟨v, h⟩
    · rw [h]
      rfl
    · rw [h]
      simp [List.lookup, beq_eq_false_iff_ne.mpr (by omega : p.1 ≠
        (stepLoop cfg e r n (resetIfNeeded cfg f s)).1.episode.id_)]
  · intro q hq
    rcases hfin with h | ⟨v, h⟩
    · rw [h] at hq
      simp at hq
    · rw [h] at hq
      simp only [List.mem_singleton] at hq
      subst hq
      exact hid

/-- A runner state holding one stale Ongoing-Episode Registry entry, for
instantiating the reset-clearing theorem. -/
def wRunnerStale : Runner :=
  { wRunner0 with ongoing := [(5, [newEpisode 5])] }

theorem reset_clears_ongoing_registry_witness :
    (∀ p ∈ wRunnerStale.ongoing,
      (sampleTimesteps wCfg 1 true false true wRunnerStale).2.ongoing.lookup p.1 = none) ∧
    (∀ q ∈ (sampleTimesteps wCfg 1 true false true wRunnerStale).2.ongoing,
      wRunnerStale.next_id ≤ q.1) :=
  reset_clears_ongoing_registry wCfg 1 true false true wRunnerStale (Or.inl rfl)
    (by decide)

/-- Claim C10.  Every episode in the Done-Episode Queue at metrics-pull
time has is_done true: both drivers append only finalized done episodes
to the queue (cut ongoing chunks are never enqueued), so starting from a
state whose queue satisfies the invariant, the queue after either driver
still satisfies it, and the is_done assertion inside get_metrics never
fails (get_metrics returns a result rather than an assertion error). -/
theorem done_queue_all_done (cfg : Config) (n fuel k : Nat) (e r f : Bool) (s : Runner)
    (hq : ∀ d ∈ s.done_eps, d.is_done = true) :
    (∀ d ∈ (sampleTimesteps cfg n e r f s).2.done_eps, d.is_done = true) ∧
    (∀ out sE, sampleEpisodes cfg fuel k e r s = some (out, sE) →
      ∀ d ∈ sE.done_eps, d.is_done = true) ∧
    (get_metrics s).isSome = true := by
  refine ⟨?_, ?_, ?_⟩
  · intro d hd
    unfold sampleTimesteps at hd
    rw [finishTimesteps_done_eps] at hd
    rw [List.mem_append] at hd
    rcases hd with hd | hd
    · rw [(stepLoop_fixed cfg e r n (resetIfNeeded cfg f s)).2.1,
        resetIfNeeded_done_eps] at hd
      exact hq d hd
    · exact (stepLoop_dones_done cfg e r n (resetIfNeeded cfg f s) d hd).1
  · intro out sE hcall d hd
    rw [sampleEpisodes] at hcall
    dsimp only at hcall
    split at hcall
    · exact absurd hcall (by simp)
    · rename_i s1 ds hrec
      simp only [Option.some.injEq, Prod.mk.injEq] at hcall
      obtain ⟨h1, h2⟩ := hcall
      subst h1
      subst h2
      obtain ⟨g1, g2, g3, g4, g5, g6, g7⟩ := epLoop_spec cfg e r fuel k _ _ _ _ hrec
      simp only at hd
      rw [List.mem_append] at hd
      rcases hd with hd | hd
      · rw [g6] at hd
        exact hq d (by simpa using hd)
      · exact (g2 d hd).1
  · unfold get_metrics
    rw [if_pos (by simpa [List.all_eq_true] using hq)]
    simp

theorem done_queue_all_done_witness :
    (∀ d ∈ (sampleTimesteps wCfg 1 true false true wRunner0).2.done_eps, d.is_done = true) ∧
    (∀ out sE, sampleEpisodes wCfg 2 1 true false wRunner0 = some (out, sE) →
      ∀ d ∈ sE.done_eps, d.is_done = true) ∧
    (get_metrics wRunner0).isSome = true :=
  done_queue_all_done wCfg 1 2 1 true false true wRunner0 (by simp [wRunner0])

/-- Claim C3.  Weight-version gating of set_state: for every incoming
state dict that contains decision-module weights, the weights are applied
exactly when the incoming version tag (a missing tag counts as 0) is 0 or
strictly greater than the locally held version; in particular a nonzero
tag not above the local one leaves the decision-module weights unchanged,
and a tag of 0 always forces the update. -/
theorem set_state_weight_gate (st : StateIn) (s : Runner) (w : Nat)
    (hw : st.rl_module = some w) :
    ((st.weights_seq_no.getD 0 = 0 ∨ s.weights_seq_no < st.weights_seq_no.getD 0) →
      (set_state st s).module_weights = w) ∧
    ((¬ (st.weights_seq_no.getD 0 = 0 ∨ s.weights_seq_no < st.weights_seq_no.getD 0)) →
      (set_state st s).module_weights = s.module_weights) := by
  obtain ⟨c1, c2, rm, sq, lt⟩ := st
  simp only at hw
  subst hw
  constructor
  · intro hcond
    rcases hcond with h0 | hlt
    · cases c1 <;> cases c2 <;> cases lt <;>
        simp [set_state, h0, apply_ite Runner.module_weights]
    · cases c1 <;> cases c2 <;> cases lt <;>
        simp [set_state, hlt, apply_ite Runner.module_weights]
  · intro hcond
    rw [not_or] at hcond
    obtain ⟨hne, hnlt⟩ := hcond
    cases c1 <;> cases c2 <;> cases lt <;>
      simp [set_state, hne, hnlt, apply_ite Runner.module_weights]

theorem set_state_weight_gate_witness :
    ((((⟨none, none, some 42, some 0, none⟩ : StateIn).weights_seq_no.getD 0 = 0 ∨
        wRunner0.weights_seq_no <
          ((⟨none, none, some 42, some 0, none⟩ : StateIn).weights_seq_no.getD 0)) →
      (set_state ⟨none, none, some 42, some 0, none⟩ wRunner0).module_weights = 42) ∧
    ((¬ (((⟨none, none, some 42, some 0, none⟩ : StateIn).weights_seq_no.getD 0 = 0) ∨
        wRunner0.weights_seq_no <
          ((⟨none, none, some 42, some 0, none⟩ : StateIn).weights_seq_no.getD 0))) →
      (set_state ⟨none, none, some 42, some 0, none⟩ wRunner0).module_weights =
        wRunner0.module_weights)) :=
  set_state_weight_gate ⟨none, none, some 42, some 0, none⟩ wRunner0 42 rfl

/-- A runner whose local weight-version counter is 5. -/
def wRunner5 : Runner :=
  { wRunner0 with weights_seq_no := 5 }

/-- Claim C4 counterexample: a set_state call carrying decision-module
weights with the nonzero version tag 3, applied to a runner whose local
counter is 5, overwrites the counter downward to 3 (the update on source
line 701-702 is not guarded by the gating condition), so the stored
counter is not monotonically non-decreasing across arbitrary set_state
calls. -/
theorem weights_seq_no_can_decrease :
    wRunner5.weights_seq_no = 5 ∧
    (set_state ⟨none, none, some 7, some 3, none⟩ wRunner5).weights_seq_no = 3 ∧
    (set_state ⟨none, none, some 7, some 3, none⟩ wRunner5).weights_seq_no <
      wRunner5.weights_seq_no := by
  refine ⟨rfl, rfl, ?_⟩
  decide

/-- Claim C4, amended: the locally held weight-version counter never
decreases across a set_state call whose incoming tag (missing counted as
0) is 0 or at least the locally held value; an incoming nonzero tag lower
than the local value overwrites the counter downward (see the
counterexample). -/
theorem set_state_seq_no_monotone (st : StateIn) (s : Runner)
    (h : st.weights_seq_no.getD 0 = 0 ∨ s.weights_seq_no ≤ st.weights_seq_no.getD 0) :
    s.weights_seq_no ≤ (set_state st s).weights_seq_no := by
  obtain ⟨c1, c2, rm, sq, lt⟩ := st
  simp only [Option.getD] at h
  cases c1 <;> cases c2 <;> cases rm <;> cases sq <;> cases lt <;>
    (unfold set_state
     dsimp only
     try split) <;>
    (try split) <;>
    simp_all <;>
    omega

theorem set_state_seq_no_monotone_witness :
    wRunner5.weights_seq_no ≤
      (set_state ⟨none, none, some 7, some 9, none⟩ wRunner5).weights_seq_no :=
  set_state_seq_no_monotone ⟨none, none, some 7, some 9, none⟩ wRunner5
    (Or.inr (by decide))

/-- Agent-to-module mapping sending both agents to module 7 (module
sharing across agents, the common multi-agent configuration). -/
def m72 : Nat → Nat := fun _ => 7

/-- A logical episode (id 0) with agents 1 and 2, after its first recorded
step (rewards 1 and 2, not yet done). -/
def bEp1 : MAEpisode :=
  ((newEpisode 0).add_env_reset m72 [(1, 10), (2, 20)]).add_env_step m72
    [(1, 11), (2, 21)] [(1, 0), (2, 0)] [(1, 1), (2, 2)] false 1

/-- The first returned chunk of the episode (cut after one step). -/
def bC1 : MAEpisode := bEp1.finalize true

/-- The terminal chunk: the cut continuation stepped once more (rewards 4
and 8) to termination, finalized. -/
def bC2 : MAEpisode :=
  ((bEp1.cut 0).add_env_step m72 [(1, 12), (2, 22)] [(1, 0), (2, 0)]
    [(1, 4), (2, 8)] true 1).finalize true

/-- The same logical episode had it never been cut: both steps recorded in
one chunk, finalized once done. -/
def bSingle : MAEpisode :=
  (bEp1.add_env_step m72 [(1, 12), (2, 22)] [(1, 0), (2, 0)]
    [(1, 4), (2, 8)] true 1).finalize true

/-- Runner state after the chunked run: terminal chunk queued, first chunk
registered under the episode id in the Ongoing-Episode Registry. -/
def sChunked : Runner :=
  { wRunner0 with done_eps := [bC2], ongoing := [(0, [bC1])] }

/-- Runner state after the unchunked run: the single whole-episode chunk
queued, registry empty. -/
def sSingle : Runner :=
  { wRunner0 with done_eps := [bSingle] }

/-- Fallback statistics record used only to destructure the optional
get_metrics result at concrete inputs. -/
def mDefault : EpMetrics := ⟨0, 0, 0, fun _ => 0, fun _ => 0, fun _ => 0⟩

/-- The statistics emitted for the episode by the chunked run. -/
def mChunked : EpMetrics :=
  (((get_metrics sChunked).getD ([], 0, sChunked)).1).headD mDefault

/-- The statistics emitted for the episode by the unchunked run. -/
def mSingle : EpMetrics :=
  (((get_metrics sSingle).getD ([], 0, sSingle)).1).headD mDefault

/-- Claim C2, evaluated at the failing input: for the two-agent episode
with both agents mapped to module 7, returned as two chunks versus as one
chunk, get_metrics emits equal length, return, duration, per-agent
returns and per-agent step counts, and deletes the registry entry, but
the per-module returns differ: the chunked run emits 11 while the
single-chunk run emits 10 (the true sum over both agents is 15).  The
dict comprehension on source lines 603-609 lets the last agent of a
shared module overwrite the others, while the chunk fold on lines 619-623
accumulates with addition, so chunked and unchunked metrics disagree. -/
theorem get_metrics_module_return_chunk_bug :
    mChunked.length = mSingle.length ∧
    mChunked.ret = mSingle.ret ∧
    mChunked.duration = mSingle.duration ∧
    mChunked.agent_returns 1 = mSingle.agent_returns 1 ∧
    mChunked.agent_returns 2 = mSingle.agent_returns 2 ∧
    mChunked.agent_steps 1 = mSingle.agent_steps 1 ∧
    mChunked.agent_steps 2 = mSingle.agent_steps 2 ∧
    ((get_metrics sChunked).getD ([], 0, sChunked)).2.2.ongoing = [] ∧
    mChunked.module_returns 7 = 11 ∧
    mSingle.module_returns 7 = 10 ∧
    mChunked.module_returns 7 ≠ mSingle.module_returns 7 := by
  decide

end MAER
